import Mathlib

/-!
# Verification of traefik-plugin-requestbodyrewrite

Shallow embedding of the request-body rewrite middleware
(package traefik_plugin_requestbodyrewrite, the full-filter variant in the
repository: per-rule method / content-type / path filters).

Go strings are modelled as lists of characters (`Str`); the bodies and
headers in all concrete examples are ASCII, where character count equals
Go byte length.  A Go `*regexp.Regexp` is modelled by the function the
middleware consumes it through: the list of leftmost non-overlapping
match spans it produces on a string (`Regexp.findAll`), from which
`ReplaceAllString` and `MatchString` are derived exactly as Go's
documented global-replace semantics prescribe.  Replacement templates in
this development are literal (no capture-group references), so
`ReplaceAllString` splices the replacement text verbatim.
-/

abbrev Str := List Char

/-- Model of `strings.ToUpper` (ASCII range, sufficient for HTTP methods). -/
def goToUpper (s : Str) : Str := s.map Char.toUpper

/-- Model of `strings.ToLower` (ASCII range). -/
def goToLower (s : Str) : Str := s.map Char.toLower

/-- Model of `strings.TrimSpace`: drop leading and trailing whitespace. -/
def goTrimSpace (s : Str) : Str :=
  ((s.dropWhile Char.isWhitespace).reverse.dropWhile Char.isWhitespace).reverse

/-- Model of `strings.Split(s, ";")[0]`: the text before the first semicolon
(the whole string when no semicolon occurs). -/
def beforeSemi (s : Str) : Str := s.takeWhile (fun c => c ≠ ';')

/-- The content-type normalization the middleware performs on both the
configured values and the request header:
`strings.ToLower(strings.TrimSpace(strings.Split(ct, ";")[0]))`. -/
def normalizeCT (ct : Str) : Str := goToLower (goTrimSpace (beforeSemi ct))

/-- Model of `strconv.Itoa` on the (non-negative) body length. -/
def itoa (n : Nat) : Str := (Nat.repr n).data

/-- Model of a Go `*regexp.Regexp`, characterized by the leftmost,
non-overlapping match spans `(start, length)` it yields on a string —
exactly the data `ReplaceAllString` and `MatchString` consume. -/
structure Regexp where
  findAll : Str → List (Nat × Nat)

/-- Splice the replacement over the given non-overlapping, ascending match
spans: text between matches is kept, each matched span is replaced. -/
def spliceAll (s rep : Str) : Nat → List (Nat × Nat) → Str
  | pos, [] => s.drop pos
  | pos, (i, l) :: rest =>
      (s.drop pos).take (i - pos) ++ rep ++ spliceAll s rep (i + l) rest

/-- Model of `(*regexp.Regexp).ReplaceAllString(src, repl)` for literal
replacement templates: replace every non-overlapping leftmost match. -/
def Regexp.ReplaceAllString (re : Regexp) (src repl : Str) : Str :=
  spliceAll src repl 0 (re.findAll src)

/-- Model of `(*regexp.Regexp).MatchString`: some match exists. -/
def Regexp.MatchString (re : Regexp) (s : Str) : Bool :=
  !(re.findAll s).isEmpty

/-- Match spans of the empty regular expression: one empty-width match at
every inter-character position and at both ends (Go semantics). -/
def emptyFind : Str → Nat → List (Nat × Nat)
  | [], pos => [(pos, 0)]
  | _ :: t, pos => (pos, 0) :: emptyFind t (pos + 1)

/-- Leftmost non-overlapping occurrences of a non-empty literal pattern,
scanning left to right; `fuel` bounds the scan (any `fuel ≥ s.length`
is exact). -/
def litFindAux (pat : Str) : Nat → Str → Nat → List (Nat × Nat)
  | 0, _, _ => []
  | _ + 1, [], _ => []
  | fuel + 1, c :: t, pos =>
      if pat.isPrefixOf (c :: t) then
        (pos, pat.length) :: litFindAux pat fuel ((c :: t).drop pat.length) (pos + pat.length)
      else
        litFindAux pat fuel t (pos + 1)

/-- The regexp denoted by a metacharacter-free (literal) pattern. -/
def Regexp.literal (pat : Str) : Regexp :=
  ⟨fun s => if pat = [] then emptyFind s 0 else litFindAux pat s.length s 0⟩

/-- Go regex metacharacters. -/
def isMeta (c : Char) : Bool :=
  c = '(' ∨ c = ')' ∨ c = '[' ∨ c = ']' ∨ c = '{' ∨ c = '}' ∨
  c = '*' ∨ c = '+' ∨ c = '?' ∨ c = '|' ∨ c = '^' ∨ c = '$' ∨
  c = '\\' ∨ c = '.'

/-- Model of `regexp.Compile` restricted to the fragment this development
exercises: a metacharacter-free pattern is a valid regular expression
denoting its literal text (the empty pattern included), and any pattern
containing a metacharacter is rejected — which covers the genuinely
invalid patterns (for instance an unbalanced `(`) used below. -/
def goCompileLit (pat : Str) : Except String Regexp :=
  if pat.all (fun c => !isMeta c) then .ok (Regexp.literal pat)
  else .error "error parsing regexp"

/-- `Rewrite` defines a single rewrite rule with optional filters
(`PathRegex = ""` means absent, as in the source). -/
structure Rewrite where
  Regex : Str
  Replacement : Str
  Methods : List Str
  ContentTypes : List Str
  PathRegex : Str

/-- `Config` holds plugin configuration. -/
structure Config where
  Rewrites : List Rewrite

/-- `compiledRule` holds a compiled rewrite rule and its filters.  The Go
`map[string]struct{}` sets are modelled as lists queried by membership
(duplicates are irrelevant to membership and emptiness). -/
structure compiledRule where
  re : Regexp
  rep : Str
  methods : List Str
  contentTypes : List Str
  pathRe : Option Regexp

/-- `RequestBodyRewrite` is the middleware instance (the `next` handler and
`name` carry no rewrite logic and are left to the pipeline model). -/
structure RequestBodyRewrite where
  rules : List compiledRule

/-- The per-rule body of the `New` loop: compile the main regex, build the
normalized method and content-type sets, compile the path regex when
present. -/
def compileRule (compile : Str → Except String Regexp) (r : Rewrite) :
    Except String compiledRule := do
  let mainRe ← compile r.Regex
  let methodsSet := r.Methods.map goToUpper
  let ctSet := r.ContentTypes.map normalizeCT
  let pathRe ←
    if r.PathRegex = [] then pure none
    else do
      let pr ← compile r.PathRegex
      pure (some pr)
  pure { re := mainRe, rep := r.Replacement,
         methods := methodsSet, contentTypes := ctSet, pathRe := pathRe }

/-- The `New` loop over `config.Rewrites`: rules are compiled in order and
the first compilation error aborts the whole construction. -/
def compileRules (compile : Str → Except String Regexp) :
    List Rewrite → Except String (List compiledRule)
  | [] => .ok []
  | r :: rest => do
      let cr ← compileRule compile r
      let crs ← compileRules compile rest
      pure (cr :: crs)

/-- `New` constructs a `RequestBodyRewrite` middleware from config,
parametrized by the regex compiler it calls (`regexp.Compile`). -/
def New (compile : Str → Except String Regexp) (config : Config) :
    Except String RequestBodyRewrite := do
  let rules ← compileRules compile config.Rewrites
  pure { rules := rules }

/-- The request body stream: a `reader` is fully readable and yields its
bytes; `failAfter` yields its bytes and then `ReadAll` reports an error
(Go `io.ReadAll` returns the data read so far together with the error). -/
inductive BodyStream where
  | reader : Str → BodyStream
  | failAfter : Str → BodyStream
deriving DecidableEq

/-- Model of `ioutil.ReadAll(req.Body)`: the bytes obtained and whether an
error occurred. -/
def readAll : BodyStream → Str × Bool
  | .reader b => (b, false)
  | .failAfter b => (b, true)

/-- The slice of `*http.Request` the middleware touches: method, URL path,
headers, body stream (possibly nil), and the logical content length. -/
structure Request where
  Method : Str
  URLPath : Str
  Header : List (Str × Str)
  Body : Option BodyStream
  ContentLength : Int
deriving DecidableEq

/-- Model of `req.Header.Get(k)`: first value for the key, `""` if absent. -/
def headerGet (h : List (Str × Str)) (k : Str) : Str :=
  match h.find? (fun p => p.1 == k) with
  | some p => p.2
  | none => []

/-- Model of `req.Header.Set(k, v)`: replace the entry for the key, or
append it. -/
def headerSet (h : List (Str × Str)) (k v : Str) : List (Str × Str) :=
  match h with
  | [] => [(k, v)]
  | (k', v') :: rest =>
      if k' == k then (k, v) :: rest else (k', v') :: headerSet rest k v

/-- One iteration of the `ServeHTTP` rule loop: the three filter checks
(`continue` on failure) followed by the replacement. -/
def applyRule (req : Request) (bodyStr : Str) (rule : compiledRule) : Str :=
  if rule.methods.length > 0 && !(rule.methods.contains req.Method) then
    bodyStr
  else if rule.contentTypes.length > 0 &&
      !(rule.contentTypes.contains
          (normalizeCT (headerGet req.Header "Content-Type".data))) then
    bodyStr
  else
    match rule.pathRe with
    | some pathRe =>
        if !(pathRe.MatchString req.URLPath) then bodyStr
        else rule.re.ReplaceAllString bodyStr rule.rep
    | none => rule.re.ReplaceAllString bodyStr rule.rep

/-- The `ServeHTTP` rule loop: apply each rewrite rule in order to the
working body. -/
def applyRules (rules : List compiledRule) (req : Request) (bodyStr : Str) : Str :=
  rules.foldl (fun b rule => applyRule req b rule) bodyStr

/-- `ServeHTTP` reads, conditionally rewrites, and forwards the request:
the returned `Request` is the one handed to `p.next.ServeHTTP`. -/
def ServeHTTP (p : RequestBodyRewrite) (req : Request) : Request :=
  match req.Body with
  | none => req
  | some stream =>
      let r := readAll stream
      if r.2 then
        { req with Body := some (.reader r.1) }
      else
        let finalStr := applyRules p.rules req r.1
        { req with
          Body := some (.reader finalStr),
          ContentLength := (finalStr.length : Int),
          Header := headerSet req.Header "Content-Length".data
                      (itoa finalStr.length) }

/-- Spec-side applicability predicate: every configured filter that is
non-empty or present is satisfied (methods, content type, path),
conjunctively. -/
def ruleApplies (rule : compiledRule) (req : Request) : Bool :=
  (rule.methods.isEmpty || rule.methods.contains req.Method) &&
  (rule.contentTypes.isEmpty ||
    rule.contentTypes.contains
      (normalizeCT (headerGet req.Header "Content-Type".data))) &&
  (match rule.pathRe with
   | none => true
   | some pathRe => pathRe.MatchString req.URLPath)

/-! ## Helper lemmas -/

theorem replaceAll_of_findAll_nil (re : Regexp) (s rep : Str)
    (h : re.findAll s = []) : re.ReplaceAllString s rep = s := by
  simp [Regexp.ReplaceAllString, h, spliceAll]

theorem applyRule_eq (req : Request) (body : Str) (rule : compiledRule) :
    applyRule req body rule =
      if ruleApplies rule req then rule.re.ReplaceAllString body rule.rep
      else body := by
  rcases rule with ⟨re, rep, ms, cts, pr⟩
  cases ms <;> cases cts <;> cases pr <;>
    simp [applyRule, ruleApplies, List.isEmpty] <;>
    split_ifs <;> simp_all <;> tauto

theorem applyRules_inert (req : Request) :
    ∀ (rules : List compiledRule) (body : Str),
      (∀ rule ∈ rules,
        ruleApplies rule req = false ∨ rule.re.findAll body = []) →
      applyRules rules req body = body
  | [], body, _ => rfl
  | rule :: rest, body, h => by
      have hhd := h rule (List.mem_cons_self rule rest)
      have hstep : applyRule req body rule = body := by
        rw [applyRule_eq]
        rcases hhd with hf | hz
        · simp [hf]
        · split_ifs <;> simp [replaceAll_of_findAll_nil _ _ _ hz]
      show applyRules rest req (applyRule req body rule) = body
      rw [hstep]
      exact applyRules_inert req rest body
        (fun rule hm => h rule (List.mem_cons_of_mem _ hm))

theorem headerGet_headerSet_self (h : List (Str × Str)) (k v : Str) :
    headerGet (headerSet h k v) k = v := by
  induction h with
  | nil => simp [headerGet, headerSet, List.find?]
  | cons kv rest ih =>
      rcases kv with ⟨k', v'⟩
      by_cases hk : k' = k
      · subst hk
        simp [headerSet, headerGet, List.find?]
      · have hbeq : (k' == k) = false := beq_false_of_ne hk
        simpa [headerSet, headerGet, List.find?, hbeq] using ih

theorem exceptBind_ok {α β : Type} (a : α) (f : α → Except String β) :
    (Except.ok a >>= f) = f a := rfl

theorem exceptBind_error {α β : Type} (e : String) (f : α → Except String β) :
    ((Except.error e : Except String α) >>= f) = Except.error e := rfl

theorem exceptPure_eq_ok {α : Type} (a : α) :
    (pure a : Except String α) = Except.ok a := rfl

theorem compileRule_fields (compile : Str → Except String Regexp)
    (r : Rewrite) (rule : compiledRule)
    (h : compileRule compile r = .ok rule) :
    compile r.Regex = .ok rule.re ∧
    rule.rep = r.Replacement ∧
    rule.methods = r.Methods.map goToUpper ∧
    rule.contentTypes = r.ContentTypes.map normalizeCT ∧
    (r.PathRegex = [] → rule.pathRe = none) ∧
    (r.PathRegex ≠ [] →
      ∃ pr, compile r.PathRegex = .ok pr ∧ rule.pathRe = some pr) := by
  cases hre : compile r.Regex with
  | error e =>
      simp [compileRule, hre, exceptBind_error] at h
  | ok re =>
      by_cases hp : r.PathRegex = []
      · simp [compileRule, hre, hp, exceptBind_ok, exceptPure_eq_ok] at h
        subst h
        simp [hre, hp]
      · cases hpre : compile r.PathRegex with
        | error e =>
            simp [compileRule, hre, hp, hpre, exceptBind_ok,
              exceptBind_error, exceptPure_eq_ok] at h
        | ok pre =>
            simp [compileRule, hre, hp, hpre, exceptBind_ok,
              exceptBind_error, exceptPure_eq_ok] at h
            subst h
            simp [hre, hp, hpre]

theorem spliceAll_empty_aux (rep : Str) :
    ∀ (t s : Str) (pos : Nat) (c : Char), s.drop pos = c :: t →
      spliceAll s rep pos (emptyFind t (pos + 1)) =
        c :: (rep ++ t.foldr (fun d acc => d :: (rep ++ acc)) [])
  | [], s, pos, c, h => by
      have hdrop : s.drop (pos + 1) = [] := by
        have h1 : (s.drop pos).drop 1 = s.drop (pos + 1) := List.drop_drop 1 pos s
        rw [h] at h1
        simpa using h1.symm
      simp [emptyFind, spliceAll, h, hdrop]
  | d :: t, s, pos, c, h => by
      have hdrop : s.drop (pos + 1) = d :: t := by
        have h1 : (s.drop pos).drop 1 = s.drop (pos + 1) := List.drop_drop 1 pos s
        rw [h] at h1
        simpa using h1.symm
      have ih := spliceAll_empty_aux rep t s (pos + 1) d hdrop
      simp only [emptyFind, spliceAll, h]
      rw [show pos + 1 - pos = 1 by omega, show pos + 1 + 0 = pos + 1 by omega]
      rw [show pos + 1 + 1 = (pos + 1) + 1 by omega] at *
      simp [ih]

theorem literal_empty_ReplaceAll (s rep : Str) :
    (Regexp.literal []).ReplaceAllString s rep =
      rep ++ s.foldr (fun c acc => c :: (rep ++ acc)) [] := by
  cases s with
  | nil => simp [Regexp.literal, Regexp.ReplaceAllString, emptyFind, spliceAll]
  | cons c t =>
      have := spliceAll_empty_aux rep t (c :: t) 0 c (by simp)
      simp only [Regexp.literal, Regexp.ReplaceAllString, emptyFind,
        if_pos rfl, spliceAll]
      simpa [spliceAll] using this

theorem compileRule_errs (compile : Str → Except String Regexp) (r : Rewrite)
    (h : (∃ e, compile r.Regex = .error e) ∨
         (r.PathRegex ≠ [] ∧ ∃ e, compile r.PathRegex = .error e)) :
    ∃ e, compileRule compile r = .error e := by
  rcases h with ⟨e, he⟩ | ⟨hp, e, he⟩
  · exact ⟨e, by simp [compileRule, he, exceptBind_error]⟩
  · cases hre : compile r.Regex with
    | error e2 => exact ⟨e2, by simp [compileRule, hre, exceptBind_error]⟩
    | ok re =>
        exact ⟨e, by simp [compileRule, hre, hp, he, exceptBind_ok,
          exceptBind_error, exceptPure_eq_ok]⟩

theorem compileRule_oks (compile : Str → Except String Regexp) (r : Rewrite)
    (h1 : ∃ re, compile r.Regex = .ok re)
    (h2 : r.PathRegex = [] ∨ ∃ pre, compile r.PathRegex = .ok pre) :
    ∃ cr, compileRule compile r = .ok cr := by
  obtain ⟨re, hre⟩ := h1
  rcases h2 with hp | ⟨pre, hpre⟩
  · refine ⟨compiledRule.mk re r.Replacement (r.Methods.map goToUpper)
      (r.ContentTypes.map normalizeCT) none, ?_⟩
    simp [compileRule, hre, hp, exceptBind_ok, exceptPure_eq_ok]
  · by_cases hp : r.PathRegex = []
    · refine ⟨compiledRule.mk re r.Replacement (r.Methods.map goToUpper)
        (r.ContentTypes.map normalizeCT) none, ?_⟩
      simp [compileRule, hre, hp, exceptBind_ok, exceptPure_eq_ok]
    · refine ⟨compiledRule.mk re r.Replacement (r.Methods.map goToUpper)
        (r.ContentTypes.map normalizeCT) (some pre), ?_⟩
      simp [compileRule, hre, hp, hpre, exceptBind_ok, exceptPure_eq_ok]

theorem compileRules_err (compile : Str → Except String Regexp) :
    ∀ (rs : List Rewrite),
      (∃ r ∈ rs,
        (∃ e, compile r.Regex = .error e) ∨
        (r.PathRegex ≠ [] ∧ ∃ e, compile r.PathRegex = .error e)) →
      ∃ e, compileRules compile rs = .error e
  | [], h => by simp at h
  | r0 :: rest, h => by
      cases hc : compileRule compile r0 with
      | error e => exact ⟨e, by simp [compileRules, hc, exceptBind_error]⟩
      | ok cr =>
          obtain ⟨r, hmem, hbad⟩ := h
          rcases List.mem_cons.mp hmem with rfl | hmem2
          · obtain ⟨e, he⟩ := compileRule_errs compile r hbad
            rw [he] at hc
            exact absurd hc (by simp)
          · obtain ⟨e, he⟩ := compileRules_err compile rest ⟨r, hmem2, hbad⟩
            exact ⟨e, by simp [compileRules, hc, he, exceptBind_ok,
              exceptBind_error]⟩

theorem compileRules_ok (compile : Str → Except String Regexp) :
    ∀ (rs : List Rewrite),
      (∀ r ∈ rs,
        (∃ re, compile r.Regex = .ok re) ∧
        (r.PathRegex = [] ∨ ∃ pre, compile r.PathRegex = .ok pre)) →
      ∃ crs, compileRules compile rs = .ok crs ∧ crs.length = rs.length
  | [], _ => ⟨[], rfl, rfl⟩
  | r0 :: rest, h => by
      obtain ⟨cr, hcr⟩ := compileRule_oks compile r0
        (h r0 (List.mem_cons_self r0 rest)).1 (h r0 (List.mem_cons_self r0 rest)).2
      obtain ⟨crs, hcrs, hlen⟩ := compileRules_ok compile rest
        (fun r hm => h r (List.mem_cons_of_mem _ hm))
      exact ⟨cr :: crs, by simp [compileRules, hcr, hcrs, exceptBind_ok,
        exceptPure_eq_ok], by simp [hlen]⟩

/-! ## Concrete fixtures -/

/-- Construction followed by one request: the request handed to the next
handler, or `none` when construction failed. -/
def runPlugin (compile : Str → Except String Regexp) (config : Config)
    (req : Request) : Option Request :=
  match New compile config with
  | .ok p => some (ServeHTTP p req)
  | .error _ => none

def cfgC2 : Config :=
  ⟨[⟨"foo".data, "bar".data, [], [], []⟩,
    ⟨"bar".data, "baz".data, [], [], []⟩]⟩

def reqC2 : Request :=
  ⟨"POST".data, "/".data, [], some (BodyStream.reader "foo".data), 3⟩

def cfgC10 : Config := ⟨[⟨[], "X".data, [], [], []⟩]⟩

def reqC10 : Request :=
  ⟨"POST".data, "/".data, [], some (BodyStream.reader "ab".data), 2⟩

def pC3 : RequestBodyRewrite :=
  ⟨[⟨Regexp.literal "foo".data, "bar".data, [], [], none⟩]⟩

def reqC3 : Request :=
  ⟨"POST".data, "/".data, [], some (BodyStream.reader "foo".data), 3⟩

/-! ## Claims -/

/-- Claim C2: rules are applied in declaration order, each applicable rule
rewriting the working body produced by the earlier ones, without
short-circuiting; a rule set replacing foo by bar and then bar by baz
turns body foo into baz (not bar), with the length metadata updated. -/
theorem claim_C2_order_dependent_composition :
    (∀ (rule : compiledRule) (rest : List compiledRule) (req : Request)
        (body : Str),
      applyRules (rule :: rest) req body =
        applyRules rest req (applyRule req body rule)) ∧
    runPlugin goCompileLit cfgC2 reqC2 =
      some ⟨"POST".data, "/".data,
        [("Content-Length".data, "3".data)],
        some (BodyStream.reader "baz".data), 3⟩ := by
  constructor
  · intro rule rest req body
    rfl
  · rfl

/-- Claim C6: when reading the body fails, the request is forwarded to the
next handler (fail-open): the bytes obtained are forwarded with no rewrite
applied, and the Content-Length header and ContentLength field keep their
original values (only the body stream field is reconstructed). -/
theorem claim_C6_fail_open_on_read_error (p : RequestBodyRewrite)
    (req : Request) (got : Str)
    (h : req.Body = some (BodyStream.failAfter got)) :
    ServeHTTP p req = { req with Body := some (BodyStream.reader got) } := by
  simp [ServeHTTP, h, readAll]

/-- Closed witness for claim C6 at a concrete failing body. -/
theorem claim_C6_fail_open_on_read_error_witness :
    (⟨"POST".data, "/".data, [("Content-Length".data, "9".data)],
        some (BodyStream.failAfter "par".data), 9⟩ : Request).Body =
      some (BodyStream.failAfter "par".data) ∧
    ServeHTTP pC3
      ⟨"POST".data, "/".data, [("Content-Length".data, "9".data)],
        some (BodyStream.failAfter "par".data), 9⟩ =
      { (⟨"POST".data, "/".data, [("Content-Length".data, "9".data)],
          some (BodyStream.failAfter "par".data), 9⟩ : Request) with
        Body := some (BodyStream.reader "par".data) } :=
  ⟨rfl, claim_C6_fail_open_on_read_error pC3 _ "par".data rfl⟩

/-- Claim C8: a nil body forwards the request completely unmodified and no
rule evaluation happens. -/
theorem claim_C8_nil_body_passthrough (p : RequestBodyRewrite) (req : Request)
    (h : req.Body = none) : ServeHTTP p req = req := by
  simp [ServeHTTP, h]

/-- Closed witness for claim C8 at a concrete body-less request. -/
theorem claim_C8_nil_body_passthrough_witness :
    (⟨"GET".data, "/".data, [], none, 0⟩ : Request).Body = none ∧
    ServeHTTP pC3 ⟨"GET".data, "/".data, [], none, 0⟩ =
      ⟨"GET".data, "/".data, [], none, 0⟩ :=
  ⟨rfl, claim_C8_nil_body_passthrough pC3 _ rfl⟩

/-- Claim C3: after a successful read of a non-nil body, the forwarded
request carries a fresh reader over the final (possibly rewritten) bytes,
and both the ContentLength field and the Content-Length header equal the
exact byte length of that final body. -/
theorem claim_C3_length_synchronization (p : RequestBodyRewrite)
    (req : Request) (body : Str)
    (h : req.Body = some (BodyStream.reader body)) :
    ServeHTTP p req =
      { req with
        Body := some (BodyStream.reader (applyRules p.rules req body)),
        ContentLength := ((applyRules p.rules req body).length : Int),
        Header := headerSet req.Header "Content-Length".data
          (itoa (applyRules p.rules req body).length) } ∧
    headerGet (ServeHTTP p req).Header "Content-Length".data =
      itoa (applyRules p.rules req body).length ∧
    (ServeHTTP p req).ContentLength =
      ((applyRules p.rules req body).length : Int) := by
  have hs : ServeHTTP p req =
      { req with
        Body := some (BodyStream.reader (applyRules p.rules req body)),
        ContentLength := ((applyRules p.rules req body).length : Int),
        Header := headerSet req.Header "Content-Length".data
          (itoa (applyRules p.rules req body).length) } := by
    simp [ServeHTTP, h, readAll]
  refine ⟨hs, ?_, ?_⟩
  · rw [hs]
    simp [headerGet_headerSet_self]
  · rw [hs]

/-- Closed witness for claim C3: one applicable rule changes foo to bar and
the forwarded metadata matches. -/
theorem claim_C3_length_synchronization_witness :
    reqC3.Body = some (BodyStream.reader "foo".data) ∧
    (ServeHTTP pC3 reqC3 =
      { reqC3 with
        Body := some (BodyStream.reader
          (applyRules pC3.rules reqC3 "foo".data)),
        ContentLength :=
          ((applyRules pC3.rules reqC3 "foo".data).length : Int),
        Header := headerSet reqC3.Header "Content-Length".data
          (itoa (applyRules pC3.rules reqC3 "foo".data).length) } ∧
      headerGet (ServeHTTP pC3 reqC3).Header "Content-Length".data =
        itoa (applyRules pC3.rules reqC3 "foo".data).length ∧
      (ServeHTTP pC3 reqC3).ContentLength =
        ((applyRules pC3.rules reqC3 "foo".data).length : Int)) :=
  ⟨rfl, claim_C3_length_synchronization pC3 reqC3 "foo".data rfl⟩

/-- Claim C7: when every rule is either filtered out or its pattern matches
zero times in the body, the forwarded request carries byte-for-byte the
same body. -/
theorem claim_C7_identity_when_no_rule_applies (p : RequestBodyRewrite)
    (req : Request) (body : Str)
    (h : req.Body = some (BodyStream.reader body))
    (hin : ∀ rule ∈ p.rules,
      ruleApplies rule req = false ∨ rule.re.findAll body = []) :
    (ServeHTTP p req).Body = some (BodyStream.reader body) := by
  have happ : applyRules p.rules req body = body :=
    applyRules_inert req p.rules body hin
  simp [ServeHTTP, h, readAll, happ]

/-- Closed witness for claim C7: one rule filtered out by method, one rule
whose pattern does not occur in the body. -/
theorem claim_C7_identity_when_no_rule_applies_witness :
    ((⟨"GET".data, "/".data, [], some (BodyStream.reader "ab".data), 2⟩ :
        Request).Body = some (BodyStream.reader "ab".data) ∧
      ∀ rule ∈ (⟨[⟨Regexp.literal "a".data, "Z".data, ["POST".data], [],
          none⟩,
        ⟨Regexp.literal "zz".data, "Z".data, [], [], none⟩]⟩ :
          RequestBodyRewrite).rules,
        ruleApplies rule
            ⟨"GET".data, "/".data, [],
              some (BodyStream.reader "ab".data), 2⟩ = false ∨
          rule.re.findAll "ab".data = []) ∧
    (ServeHTTP
        ⟨[⟨Regexp.literal "a".data, "Z".data, ["POST".data], [], none⟩,
          ⟨Regexp.literal "zz".data, "Z".data, [], [], none⟩]⟩
        ⟨"GET".data, "/".data, [],
          some (BodyStream.reader "ab".data), 2⟩).Body =
      some (BodyStream.reader "ab".data) :=
  ⟨⟨rfl, by
      intro rule hmem
      simp only [List.mem_cons, List.not_mem_nil, or_false] at hmem
      rcases hmem with rfl | rfl
      · exact Or.inl rfl
      · exact Or.inr rfl⟩,
    claim_C7_identity_when_no_rule_applies _ _ "ab".data rfl
      (by
        intro rule hmem
        simp only [List.mem_cons, List.not_mem_nil, or_false] at hmem
        rcases hmem with rfl | rfl
        · exact Or.inl rfl
        · exact Or.inr rfl)⟩

/-- Claim C9: whenever a non-nil body is read successfully the body stream is
replaced and both length metadata are set to the final byte length even when
zero rules applied and the bytes are unchanged — a request that arrived
without a Content-Length header leaves with that header set. -/
theorem claim_C9_unconditional_length_set (p : RequestBodyRewrite)
    (req : Request) (body : Str)
    (h : req.Body = some (BodyStream.reader body))
    (hnone : req.Header.find? (fun kv => kv.1 == "Content-Length".data) = none)
    (hinert : ∀ rule ∈ p.rules, ruleApplies rule req = false) :
    headerGet req.Header "Content-Length".data = [] ∧
    (ServeHTTP p req).Body = some (BodyStream.reader body) ∧
    (ServeHTTP p req).ContentLength = (body.length : Int) ∧
    headerGet (ServeHTTP p req).Header "Content-Length".data =
      itoa body.length := by
  have happ : applyRules p.rules req body = body :=
    applyRules_inert req p.rules body
      (fun rule hm => Or.inl (hinert rule hm))
  have hs : ServeHTTP p req =
      { req with
        Body := some (BodyStream.reader body),
        ContentLength := (body.length : Int),
        Header := headerSet req.Header "Content-Length".data
          (itoa body.length) } := by
    simp [ServeHTTP, h, readAll, happ]
  refine ⟨?_, ?_, ?_, ?_⟩
  · simp [headerGet, hnone]
  · rw [hs]
  · rw [hs]
  · rw [hs]
    simp [headerGet_headerSet_self]

/-- Closed witness for claim C9: a chunked-style request with no
Content-Length header and an empty rule list leaves with the header set. -/
theorem claim_C9_unconditional_length_set_witness :
    (⟨"POST".data, "/".data, [], some (BodyStream.reader "ab".data), -1⟩ :
        Request).Body = some (BodyStream.reader "ab".data) ∧
    (⟨"POST".data, "/".data, [], some (BodyStream.reader "ab".data), -1⟩ :
        Request).Header.find?
      (fun kv => kv.1 == "Content-Length".data) = none ∧
    (∀ rule ∈ (⟨[]⟩ : RequestBodyRewrite).rules,
      ruleApplies rule
        ⟨"POST".data, "/".data, [],
          some (BodyStream.reader "ab".data), -1⟩ = false) ∧
    (headerGet (⟨"POST".data, "/".data, [],
        some (BodyStream.reader "ab".data), -1⟩ : Request).Header
        "Content-Length".data = [] ∧
    (ServeHTTP ⟨[]⟩
        ⟨"POST".data, "/".data, [],
          some (BodyStream.reader "ab".data), -1⟩).Body =
      some (BodyStream.reader "ab".data) ∧
    (ServeHTTP ⟨[]⟩
        ⟨"POST".data, "/".data, [],
          some (BodyStream.reader "ab".data), -1⟩).ContentLength =
      (("ab".data).length : Int) ∧
    headerGet (ServeHTTP ⟨[]⟩
        ⟨"POST".data, "/".data, [],
          some (BodyStream.reader "ab".data), -1⟩).Header
        "Content-Length".data = itoa ("ab".data).length) :=
  ⟨rfl, rfl, fun rule hm => absurd hm (List.not_mem_nil rule),
    claim_C9_unconditional_length_set ⟨[]⟩ _ "ab".data rfl rfl
      (fun rule hm => absurd hm (List.not_mem_nil rule))⟩

/-- Claim C10: the empty pattern is accepted by New, and a rule with an
empty regex inserts the replacement at every inter-character position and
at both ends: regex empty with replacement X rewrites body ab to XaXbX. -/
theorem claim_C10_empty_regex_insertion :
    (goCompileLit []).isOk = true ∧
    (∀ (s rep : Str),
      (Regexp.literal []).ReplaceAllString s rep =
        rep ++ s.foldr (fun c acc => c :: (rep ++ acc)) []) ∧
    runPlugin goCompileLit cfgC10 reqC10 =
      some ⟨"POST".data, "/".data,
        [("Content-Length".data, "5".data)],
        some (BodyStream.reader "XaXbX".data), 5⟩ :=
  ⟨rfl, literal_empty_ReplaceAll, rfl⟩

/-- Claim C4: construction is atomic — if any rule's body regex or path
regex fails to compile, New returns an error and no instance is produced;
if every pattern compiles, New returns an instance containing all rules. -/
theorem claim_C4_atomic_construction (compile : Str → Except String Regexp)
    (config : Config) :
    ((∃ r ∈ config.Rewrites,
        (∃ e, compile r.Regex = .error e) ∨
        (r.PathRegex ≠ [] ∧ ∃ e, compile r.PathRegex = .error e)) →
      ∃ e, New compile config = .error e) ∧
    ((∀ r ∈ config.Rewrites,
        (∃ re, compile r.Regex = .ok re) ∧
        (r.PathRegex = [] ∨ ∃ pre, compile r.PathRegex = .ok pre)) →
      ∃ p, New compile config = .ok p ∧
        p.rules.length = config.Rewrites.length) := by
  constructor
  · intro h
    obtain ⟨e, he⟩ := compileRules_err compile config.Rewrites h
    exact ⟨e, by simp [New, he, exceptBind_error]⟩
  · intro h
    obtain ⟨crs, hcrs, hlen⟩ := compileRules_ok compile config.Rewrites h
    exact ⟨⟨crs⟩, by simp [New, hcrs, exceptBind_ok, exceptPure_eq_ok], hlen⟩

def cfgC4bad : Config := ⟨[⟨"(".data, "x".data, [], [], []⟩]⟩

/-- Closed witness for claim C4: a single rule whose pattern is an
unbalanced parenthesis rejects the whole configuration. -/
theorem claim_C4_atomic_construction_witness :
    (∃ r ∈ cfgC4bad.Rewrites,
        (∃ e, goCompileLit r.Regex = .error e) ∨
        (r.PathRegex ≠ [] ∧ ∃ e, goCompileLit r.PathRegex = .error e)) ∧
    (∃ e, New goCompileLit cfgC4bad = .error e) :=
  ⟨⟨⟨"(".data, "x".data, [], [], []⟩, List.mem_cons_self _ _,
      Or.inl ⟨"error parsing regexp", rfl⟩⟩,
    (claim_C4_atomic_construction goCompileLit cfgC4bad).1
      ⟨⟨"(".data, "x".data, [], [], []⟩, List.mem_cons_self _ _,
        Or.inl ⟨"error parsing regexp", rfl⟩⟩⟩

theorem isEmpty_map {α β : Type} (f : α → β) (l : List α) :
    (l.map f).isEmpty = l.isEmpty := by
  cases l <;> rfl

/-- Claim C1: for every request with a successfully read body, a compiled
rule's substitution is applied to the working body exactly when all its
configured filters pass: the methods set is empty or contains the request
method as-is (tested against the uppercase-normalized configured set), the
contentTypes set is empty or contains the normalized media type, and the
path regex is absent (PathRegex was empty) or matches somewhere in the
URL path. -/
theorem claim_C1_filter_conjunction (compile : Str → Except String Regexp)
    (r : Rewrite) (rule : compiledRule) (req : Request) (body : Str)
    (h : compileRule compile r = .ok rule) :
    applyRule req body rule =
      (if ruleApplies rule req then
        rule.re.ReplaceAllString body rule.rep
       else body) ∧
    ruleApplies rule req =
      ((r.Methods.isEmpty || (r.Methods.map goToUpper).contains req.Method) &&
       (r.ContentTypes.isEmpty ||
         (r.ContentTypes.map normalizeCT).contains
           (normalizeCT (headerGet req.Header "Content-Type".data))) &&
       (match rule.pathRe with
        | none => true
        | some pathRe => pathRe.MatchString req.URLPath)) ∧
    (rule.pathRe = none ↔ r.PathRegex = []) := by
  obtain ⟨hre, hrep, hms, hcts, hpn, hps⟩ :=
    compileRule_fields compile r rule h
  refine ⟨applyRule_eq req body rule, ?_, ?_, hpn⟩
  · simp only [ruleApplies, hms, hcts, isEmpty_map]
  · intro hnone
    by_contra hne
    obtain ⟨pr, hpr, hsome⟩ := hps hne
    rw [hnone] at hsome
    cases hsome

def rC1 : Rewrite :=
  ⟨"foo".data, "bar".data, ["post".data], ["application/json".data],
    "/api".data⟩

def ruleC1 : compiledRule :=
  ⟨Regexp.literal "foo".data, "bar".data, ["POST".data],
    ["application/json".data], some (Regexp.literal "/api".data)⟩

def reqC1 : Request :=
  ⟨"POST".data, "/api/users".data,
    [("Content-Type".data, "application/json; charset=utf-8".data)],
    some (BodyStream.reader "foo".data), 3⟩

/-- Closed witness for claim C1: a rule with all three filters configured,
evaluated on a matching POST JSON request. -/
theorem claim_C1_filter_conjunction_witness :
    compileRule goCompileLit rC1 = Except.ok ruleC1 ∧
    (applyRule reqC1 "foo".data ruleC1 =
      (if ruleApplies ruleC1 reqC1 then
        ruleC1.re.ReplaceAllString "foo".data ruleC1.rep
       else "foo".data) ∧
    ruleApplies ruleC1 reqC1 =
      ((rC1.Methods.isEmpty ||
         (rC1.Methods.map goToUpper).contains reqC1.Method) &&
       (rC1.ContentTypes.isEmpty ||
         (rC1.ContentTypes.map normalizeCT).contains
           (normalizeCT (headerGet reqC1.Header "Content-Type".data))) &&
       (match ruleC1.pathRe with
        | none => true
        | some pathRe => pathRe.MatchString reqC1.URLPath)) ∧
    (ruleC1.pathRe = none ↔ rC1.PathRegex = [])) :=
  ⟨rfl, claim_C1_filter_conjunction goCompileLit rC1 ruleC1 reqC1
    "foo".data rfl⟩

/-- Claim C5: content-type matching normalizes both sides (media type before
any semicolon, whitespace trimmed, lower-cased): the configured set is
normalized at construction, the request side is normalized the same way at
evaluation, a configured application/json matches a request declaring
application/json with a charset parameter, and an absent Content-Type
header is read as the empty string, satisfying a non-empty filter exactly
when the empty string is in the configured (normalized) set. -/
theorem claim_C5_content_type_normalization
    (compile : Str → Except String Regexp) (r : Rewrite)
    (rule : compiledRule) (req : Request) (body : Str)
    (h : compileRule compile r = .ok rule)
    (hm : r.Methods = []) (hp : r.PathRegex = []) :
    rule.contentTypes = r.ContentTypes.map normalizeCT ∧
    applyRule req body rule =
      (if r.ContentTypes = [] ∨
          normalizeCT (headerGet req.Header "Content-Type".data) ∈
            r.ContentTypes.map normalizeCT
       then rule.re.ReplaceAllString body rule.rep else body) ∧
    normalizeCT "application/json; charset=utf-8".data =
      normalizeCT "application/json".data ∧
    (req.Header.find? (fun kv => kv.1 == "Content-Type".data) = none →
      headerGet req.Header "Content-Type".data = []) := by
  obtain ⟨hre, hrep, hms, hcts, hpn, hps⟩ :=
    compileRule_fields compile r rule h
  have hpathRe : rule.pathRe = none := hpn hp
  refine ⟨hcts, ?_, by rfl, ?_⟩
  · rw [applyRule_eq]
    have hra : ruleApplies rule req =
        ((r.ContentTypes.map normalizeCT).isEmpty ||
          (r.ContentTypes.map normalizeCT).contains
            (normalizeCT (headerGet req.Header "Content-Type".data))) := by
      simp [ruleApplies, hms, hcts, hm, hpathRe]
    rw [hra]
    have hbool : ((r.ContentTypes.map normalizeCT).isEmpty ||
        (r.ContentTypes.map normalizeCT).contains
          (normalizeCT (headerGet req.Header "Content-Type".data))) = true ↔
        (r.ContentTypes = [] ∨
          normalizeCT (headerGet req.Header "Content-Type".data) ∈
            r.ContentTypes.map normalizeCT) := by
      simp [List.isEmpty_iff]
    by_cases hc : r.ContentTypes = [] ∨
        normalizeCT (headerGet req.Header "Content-Type".data) ∈
          r.ContentTypes.map normalizeCT
    · rw [if_pos (hbool.mpr hc), if_pos hc]
    · rw [if_neg (fun hb => hc (hbool.mp hb)), if_neg hc]
  · intro hf
    simp [headerGet, hf]

def rC5 : Rewrite :=
  ⟨"foo".data, "bar".data, [], ["application/json".data], []⟩

def ruleC5 : compiledRule :=
  ⟨Regexp.literal "foo".data, "bar".data, [],
    ["application/json".data], none⟩

def reqC5 : Request :=
  ⟨"POST".data, "/".data,
    [("Content-Type".data, "application/json; charset=utf-8".data)],
    some (BodyStream.reader "foo".data), 3⟩

/-- Closed witness for claim C5: a content-type-only rule on a request
declaring a charset parameter. -/
theorem claim_C5_content_type_normalization_witness :
    compileRule goCompileLit rC5 = Except.ok ruleC5 ∧
    rC5.Methods = [] ∧ rC5.PathRegex = [] ∧
    (ruleC5.contentTypes = rC5.ContentTypes.map normalizeCT ∧
    applyRule reqC5 "foo".data ruleC5 =
      (if rC5.ContentTypes = [] ∨
          normalizeCT (headerGet reqC5.Header "Content-Type".data) ∈
            rC5.ContentTypes.map normalizeCT
       then ruleC5.re.ReplaceAllString "foo".data ruleC5.rep
       else "foo".data) ∧
    normalizeCT "application/json; charset=utf-8".data =
      normalizeCT "application/json".data ∧
    (reqC5.Header.find? (fun kv => kv.1 == "Content-Type".data) = none →
      headerGet reqC5.Header "Content-Type".data = [])) :=
  ⟨rfl, rfl, rfl,
    claim_C5_content_type_normalization goCompileLit rC5 ruleC5 reqC5
      "foo".data rfl rfl rfl⟩
